import Mathlib

set_option linter.unusedVariables false

/-!
Verification development for the `image-scraping` repository.

`src/nasa_api.py` implements a rate-limited, paginated, streaming fetch
pipeline: `NASAApi._get_pages` walks the linked pages of a search, spawns one
`_get_item` task per entry, and all of them push values onto an
`asyncio.Queue` that a `ResultIterator` consumes; a `None` sentinel marks the
end of the stream.  `src/main.py` drives a downstream fan-out of `rekognize`
worker tasks over the delivered records.

The concurrent part is embedded as a small-step relation `Step` on pipeline
states; the non-determinism of the relation is exactly the freedom the
cooperative scheduler has in interleaving the spawned tasks.  Pure pieces of
the code (`_get_item`'s URL bucketing, the page-walk recursion, `main`'s
skip-or-spawn loop, the session refcounting) are embedded as Lean functions.
-/

/-- One entry of `data["links"]` in a page response, as read by
`nasa_api.py` lines 92-95 (`url["rel"]`, `url["href"]`). -/
structure Link where
  rel : String
  href : String
  deriving DecidableEq

/-- One element of `data["items"]`.  `data` holds the selected field
dictionary `item["data"][0]` (line 112), `href` the detail URL (line 115).
`resp` is the modelled world's response to `GET item["href"]` performed by
`_get_item` (lines 115-117): `none` models a non-success status, on which
`resp.raise_for_status()` raises and the task dies; `some d` models a 200
response whose JSON body is the list `d` of asset URL strings. -/
structure Item where
  data : List (String × String)
  href : String
  resp : Option (List String)
  deriving DecidableEq

/-- The `"collection"` object of one page response (`nasa_api.py` line 89):
its `links`, its `metadata.total_hits` and its `items`. -/
structure Collection where
  links : List Link
  total_hits : Nat
  items : List Item
  deriving DecidableEq

/-- `next((url["href"] for url in data["links"] if url["rel"] == "next"), None)`
from `nasa_api.py` lines 92-95. -/
def next_page (c : Collection) : Option String :=
  (c.links.find? fun url => url.rel == "next").map Link.href

/-- Python truthiness of the `next_page` value tested by `while next_page:`
(`nasa_api.py` line 84): `None` and the empty string are falsy. -/
def truthy : Option String → Bool
  | none => false
  | some s => !(s == "")

/-- Helper for python's substring test: `needle` is a leading block of the
character list. -/
def listIsPre : List Char → List Char → Bool
  | [], _ => true
  | _ :: _, [] => false
  | a :: as, b :: bs => a == b && listIsPre as bs

/-- Helper for python's substring test: `needle` occurs somewhere in the
character list. -/
def listSub : List Char → List Char → Bool
  | needle, [] => needle.isEmpty
  | needle, b :: bs => listIsPre needle (b :: bs) || listSub needle bs

/-- Python's `sub in s` substring containment on strings
(used by `key in u`, `nasa_api.py` line 123, and the keyword checks of
`filter.py`). -/
def strContains (s sub : String) : Bool :=
  listSub sub.data s.data

/-- The size-tier keys scanned by `_get_item` (`nasa_api.py` line 122). -/
def size_keys : List String :=
  ["orig", "large", "medium", "small", "thumb"]

/-- `result["image_urls"]` as built by `_get_item` lines 121-125: for each
size key in declaration order, the first URL of the detail document that
contains the key as a substring; keys with no matching URL are skipped. -/
def imageUrls (data : List String) : List (String × String) :=
  size_keys.filterMap fun key =>
    (data.find? fun u => strContains u key).map fun url => (key, url)

/-- The record dictionary enqueued by `_get_item` (line 126): the fields of
`item["data"][0]` plus the `image_urls` mapping. -/
structure Record where
  fields : List (String × String)
  image_urls : List (String × String)
  deriving DecidableEq

/-- `_get_item` as a function of the item (with its modelled detail
response): `none` when the detail fetch has non-success status — the task
raises at line 116 and enqueues nothing — otherwise the record it enqueues. -/
def get_item (it : Item) : Option Record :=
  it.resp.map fun d => { fields := it.data, image_urls := imageUrls d }

/-- The record produced by a successfully completed `_get_item` task. -/
def runRecord (it : Item) : Record :=
  { fields := it.data, image_urls := imageUrls (it.resp.getD []) }

/-- First-biased choice, mirroring that `_get_pages` only stores
`total_hits` from the first page (the `first` flag, lines 83, 98-100). -/
def orFirst (a b : Option Nat) : Option Nat :=
  match a with
  | some x => some x
  | none => b

/-- The pure recursion underlying the `while next_page:` loop of
`_get_pages` (`nasa_api.py` lines 80-104), over the list of successive page
responses of the modelled server (`none` = non-success status).  Returns the
total enqueued from the first page, the items spawned as `_get_item` tasks in
spawn order, and whether the loop ran to completion (`false`: some page fetch
raised, or the world supplies no further response). -/
def pagesLoop : List (Option Collection) → Bool → Option Nat × List Item × Bool
  | [], _ => (none, [], false)
  | none :: _, _ => (none, [], false)
  | some c :: rest, first =>
    if truthy (next_page c) then
      (orFirst (if first then some c.total_hits else none) (pagesLoop rest false).1,
       c.items ++ (pagesLoop rest false).2.1,
       (pagesLoop rest false).2.2)
    else
      (if first then some c.total_hits else none, c.items, true)

/-- A value travelling on the `asyncio.Queue`: the `total_hits` integer put
at line 99, a record dict put at line 126, or the `None` sentinel put at
line 109. -/
inductive QVal where
  | total (n : Nat)
  | record (r : Record)
  | sentinel
  deriving DecidableEq

/-- Position of the `_get_pages` coroutine between suspension points:
about to fetch the `k`-th page of the chain (with the `first` flag), blocked
in `asyncio.gather` (line 107), finished after putting the sentinel
(line 109), or dead from an uncaught exception. -/
inductive Phase where
  | fetching (k : Nat) (first : Bool)
  | gathering
  | done
  | failed
  deriving DecidableEq

/-- State of one run of the fetch pipeline: the walker's phase, the spawned
`_get_item` tasks that have not yet finished (`pending`), whether some item
task has already died (`anyFailed`, what `asyncio.gather` will observe), the
log of all `asyncio.create_task` calls (the `tasks` set of line 82, in spawn
order), and the queue contents in enqueue order. -/
structure PState where
  phase : Phase
  pending : List Item
  anyFailed : Bool
  spawned : List Item
  queue : List QVal
  deriving DecidableEq

/-- The state in which `search` starts `_get_pages` (line 75). -/
def initState : PState :=
  { phase := Phase.fetching 0 true, pending := [], anyFailed := false,
    spawned := [], queue := [] }

/-- One scheduler step of the pipeline.  `w` is the modelled server: the
`k`-th element is the response to the `k`-th page fetch of the chain
(`none` = non-success status, on which `raise_for_status` raises).

* `pageOk`: the walker fetches a page (lines 85-104).  Between its two
  suspension points it atomically reads the next link, puts `total_hits` if
  this is the first page, and spawns one `_get_item` task per entry; it then
  loops if `next_page` is truthy, else falls through to the gather.
* `pageErr`: a page fetch has non-success status; line 87 raises and the
  walker task dies with the exception.
* `itemOk`: a pending `_get_item` task runs to completion, enqueueing its
  record (line 126).
* `itemErr`: a pending `_get_item` task's detail fetch has non-success
  status; line 116 raises, the task dies, nothing is enqueued.
* `gatherOk`: every spawned task completed, `asyncio.gather` returns and the
  walker puts the sentinel (lines 107-109).
* `gatherErr`: some spawned task died; `asyncio.gather` re-raises its
  exception and the walker dies before line 109. -/
inductive Step (w : List (Option Collection)) : PState → PState → Prop where
  | pageOk {k : Nat} {first : Bool} {c : Collection} {pend sp : List Item}
      {f : Bool} {q : List QVal} (h : w[k]? = some (some c)) :
      Step w ⟨Phase.fetching k first, pend, f, sp, q⟩
        ⟨(if truthy (next_page c) then Phase.fetching (k + 1) false else Phase.gathering),
         pend ++ c.items, f, sp ++ c.items,
         q ++ (if first then [QVal.total c.total_hits] else [])⟩
  | pageErr {k : Nat} {first : Bool} {pend sp : List Item} {f : Bool}
      {q : List QVal} (h : w[k]? = some none) :
      Step w ⟨Phase.fetching k first, pend, f, sp, q⟩ ⟨Phase.failed, pend, f, sp, q⟩
  | itemOk {ph : Phase} {it : Item} {d : List String} {l₁ l₂ sp : List Item}
      {f : Bool} {q : List QVal} (h : it.resp = some d) :
      Step w ⟨ph, l₁ ++ it :: l₂, f, sp, q⟩
        ⟨ph, l₁ ++ l₂, f, sp, q ++ [QVal.record ⟨it.data, imageUrls d⟩]⟩
  | itemErr {ph : Phase} {it : Item} {l₁ l₂ sp : List Item} {f : Bool}
      {q : List QVal} (h : it.resp = none) :
      Step w ⟨ph, l₁ ++ it :: l₂, f, sp, q⟩ ⟨ph, l₁ ++ l₂, true, sp, q⟩
  | gatherOk {sp : List Item} {q : List QVal} :
      Step w ⟨Phase.gathering, [], false, sp, q⟩
        ⟨Phase.done, [], false, sp, q ++ [QVal.sentinel]⟩
  | gatherErr {pend sp : List Item} {q : List QVal} :
      Step w ⟨Phase.gathering, pend, true, sp, q⟩ ⟨Phase.failed, pend, true, sp, q⟩

/-- Finitely many scheduler steps. -/
def Steps (w : List (Option Collection)) : PState → PState → Prop :=
  Relation.ReflTransGen (Step w)

/-- What one `ResultIterator.__anext__` call does on the remaining queue
contents (`nasa_api.py` lines 23-27): on an empty queue `queue.get()`
suspends with nothing left to wake it (`blocked`); on the `None` sentinel it
raises `StopAsyncIteration` (`stop`); otherwise it returns the value. -/
inductive NextOut where
  | item (v : QVal) (rest : List QVal)
  | stop (rest : List QVal)
  | blocked
  deriving DecidableEq

/-- `ResultIterator.__anext__` on the queue contents. -/
def anext : List QVal → NextOut
  | [] => NextOut.blocked
  | QVal.sentinel :: vs => NextOut.stop vs
  | v :: vs => NextOut.item v vs

/-- The values an `async for` over the `ResultIterator` delivers: everything
up to (and excluding) the first sentinel or the end of the enqueued values. -/
def consume : List QVal → List QVal
  | [] => []
  | QVal.sentinel :: _ => []
  | v :: vs => v :: consume vs

/-- The queue contents left over at the moment `__anext__` raises
`StopAsyncIteration`; `none` when iteration never observes a sentinel. -/
def afterStop : List QVal → Option (List QVal)
  | [] => none
  | QVal.sentinel :: vs => some vs
  | _ :: vs => afterStop vs

/-- `total = await queue.get()` inside `search` (line 77): pops the first
enqueued value, suspending forever (`none`) if nothing is ever enqueued. -/
def searchPop : List QVal → Option (QVal × List QVal)
  | [] => none
  | v :: vs => some (v, vs)

/-- The record values a queue contents holds, in order. -/
def queueRecs (q : List QVal) : List Record :=
  q.filterMap fun v =>
    match v with
    | QVal.record r => some r
    | _ => none

/-- The total-count values a queue contents holds, in order. -/
def totalsOf (q : List QVal) : List Nat :=
  q.filterMap fun v =>
    match v with
    | QVal.total n => some n
    | _ => none

/-- `item["nasa_id"]` as read by `main.py` lines 20 and 50: lookup in the
record's field dictionary (`None`-free: a missing key raises `KeyError`,
modelled as `none`). -/
def nasa_id (r : Record) : Option String :=
  (r.fields.find? fun p => p.1 == "nasa_id").map Prod.snd

/-- The size-priority list of `rekognize` (`main.py` line 19). -/
def rek_keys : List String :=
  ["medium", "small", "large", "orig", "thumb"]

/-- `next(k for k in keys if k in item["image_urls"])` (`main.py` line 20):
the first priority key present in the record's `image_urls` mapping, `none`
when there is none — in which case `next` raises and the worker task dies. -/
def pickKey (image_urls : List (String × String)) : Option String :=
  rek_keys.find? fun k => (image_urls.find? fun p => p.1 == k).isSome

/-- Whether a `rekognize` worker task for this record completes.  The image
fetch, the Rekognition call and the disk writes are external collaborators
modelled as succeeding; the retained failure mode is the size-tier selection
of `main.py` line 20, which raises when `image_urls` holds no priority key. -/
def workerOk (item : Record) : Bool :=
  (pickKey item.image_urls).isSome

/-- State of the `main()` driver loop of `main.py` lines 48-59: the in-memory
`img_ids` set and the spawned `rekognize` tasks (the `tasks` set, in spawn
order, identified by the record they process). -/
structure MainState where
  img_ids : List String
  tasks : List Record
  deriving DecidableEq

/-- One iteration of the `async for item in ...` body (`main.py` lines
48-59): read `item["nasa_id"]` (`none` = `KeyError`, the driver dies), skip
when it is in `img_ids`, otherwise add it to `img_ids` and spawn a
`rekognize` task. -/
def mainStep (st : MainState) (item : Record) : Option MainState :=
  (nasa_id item).map fun i =>
    if i ∈ st.img_ids then st
    else { img_ids := i :: st.img_ids, tasks := st.tasks ++ [item] }

/-- The whole driver loop over the delivered stream. -/
def mainLoop : MainState → List Record → Option MainState
  | st, [] => some st
  | st, item :: rest => (mainStep st item).bind fun st' => mainLoop st' rest

/-- `main()` over a delivered stream, given the `img_ids` loaded from disk
(lines 33-36): runs the driver loop, then `await asyncio.gather(*tasks)`
(line 62).  `none` = the loop itself died; `some true` = every spawned worker
completed and the run finishes; `some false` = some worker died and the
gather re-raises, aborting the run. -/
def mainRun (ids0 : List String) (stream : List Record) : Option Bool :=
  (mainLoop { img_ids := ids0, tasks := [] } stream).map fun st =>
    st.tasks.all workerOk

/-- Lifecycle state of the `NASAApi` session handling (`nasa_api.py` lines
48-67).  Pools (= `aiohttp.ClientSession` objects) are numbered by creation
index; `session` is the pool currently stored in `self.session`,
`pools_closed` the creation indices passed to `.close()`, in order. -/
structure ApiLifecycle where
  pools_created : Nat
  session : Option Nat
  pools_closed : List Nat
  entered_count : Int
  deriving DecidableEq

/-- `__init__` (lines 48-49): no session yet, `_entered_count = 0`. -/
def apiInit : ApiLifecycle :=
  { pools_created := 0, session := none, pools_closed := [], entered_count := 0 }

/-- `open()` (lines 51-53): unconditionally creates a fresh
`aiohttp.ClientSession` and overwrites `self.session` with it. -/
def api_open (st : ApiLifecycle) : ApiLifecycle :=
  { st with pools_created := st.pools_created + 1, session := some st.pools_created }

/-- `close()` (lines 65-67): closes whatever `self.session` currently is. -/
def api_close (st : ApiLifecycle) : ApiLifecycle :=
  { st with pools_closed := st.pools_closed ++ st.session.toList }

/-- `__aenter__` (lines 55-58): `self.open()` then `self._entered_count += 1`. -/
def api_aenter (st : ApiLifecycle) : ApiLifecycle :=
  let st1 := api_open st
  { st1 with entered_count := st1.entered_count + 1 }

/-- `__aexit__` (lines 60-63): decrement `self._entered_count`, and call
`close()` exactly when it reaches zero. -/
def api_aexit (st : ApiLifecycle) : ApiLifecycle :=
  let st1 : ApiLifecycle := { st with entered_count := st.entered_count - 1 }
  if st1.entered_count = 0 then api_close st1 else st1

/-- The `AsyncLimiter(...)` constructor arguments used in `__init__`
(`nasa_api.py` lines 45-47): maximum burst `concurrency_limit`, over a time
period of `concurrency_limit / requests_per_second` seconds. -/
def rate_limiter_args (concurrency_limit requests_per_second : ℚ) : ℚ × ℚ :=
  (concurrency_limit, concurrency_limit / requests_per_second)

/-- `nasa_api.py` line 129. -/
def CONCURRENCY_LIMIT : ℚ := 5

/-- `nasa_api.py` line 130. -/
def REQUESTS_PER_SECOND : ℚ := 5

/-- The arguments of the module-level shared limiter (`nasa_api.py`
lines 132-134). -/
def NASA_API_rate_limiter : ℚ × ℚ :=
  rate_limiter_args CONCURRENCY_LIMIT REQUESTS_PER_SECOND

/-- Modelled from the spec: the `AsyncLimiter` implementation itself is the
external `aiolimiter` library, not part of `src/`; only its construction and
call sites are.  Per §4.1 of the spec, permits of burst size `C` are
"replenished on a fixed schedule (burst size C, refill period C/R)
independent of acquire calls".  Time is discretised into ticks of `1/R`
seconds, so the refill period `C/R` seconds is `P = C` ticks; at every tick
`t` with `t % P = 0` the bucket is refilled to `C` permits.  Given the
demand `w` of ready `acquire()` callers at each tick, `limRun` returns how
many acquisitions are granted at each tick (the rest stay suspended). -/
def limRun (C P : Nat) : Nat → Nat → List Nat → List Nat
  | _, _, [] => []
  | t, permits, wt :: ws =>
    let p := if t % P = 0 then C else permits
    min wt p :: limRun C P (t + 1) (p - min wt p) ws

/-- The permit count left after running `limRun` over the given demand. -/
def limPermits (C P : Nat) : Nat → Nat → List Nat → Nat
  | _, permits, [] => permits
  | t, permits, wt :: ws =>
    let p := if t % P = 0 then C else permits
    limPermits C P (t + 1) (p - min wt p) ws

/-- Which queue suffix the sentinel contributes in a given phase: the
sentinel is enqueued exactly by the transition into `Phase.done`. -/
def sentinelIf (ph : Phase) : List QVal :=
  if ph = Phase.done then [QVal.sentinel] else []

/-- The phase-dependent part of the pipeline invariant.  In a `fetching`
state it records what the `first` flag means and that finishing the
remaining page chain extends the already-spawned tasks and the
already-enqueued total exactly as the pure `pagesLoop` recursion says; in
`gathering`/`done` states the chain is complete and `pagesLoop` describes
the total and the spawn log exactly; a `failed` walker promises nothing. -/
def phaseInv (w : List (Option Collection)) (s : PState) (t? : Option Nat) : Prop :=
  match s.phase with
  | Phase.fetching k first =>
      (first = true → k = 0 ∧ t? = none ∧ s.spawned = [] ∧ s.pending = [])
      ∧ (first = false → t?.isSome = true)
      ∧ (∀ res : Option Nat × List Item × Bool,
          pagesLoop (w.drop k) first = res → res.2.2 = true →
          pagesLoop w true = (orFirst t? res.1, s.spawned ++ res.2.1, true))
  | Phase.gathering =>
      t?.isSome = true ∧ pagesLoop w true = (t?, s.spawned, true)
  | Phase.done =>
      t?.isSome = true ∧ pagesLoop w true = (t?, s.spawned, true)
      ∧ s.pending = [] ∧ s.anyFailed = false
  | Phase.failed => True

/-- The reachable-state invariant of the fetch pipeline.  The queue always
consists of the first-page total (if already put), then one record per
completed `_get_item` task in completion order, then the sentinel exactly in
`done` states; the spawn log splits into completed, dead and still-pending
tasks; `anyFailed` says whether the dead part is non-empty; any enqueued
total is the first page's `total_hits`. -/
def PipelineInv (w : List (Option Collection)) (s : PState) : Prop :=
  ∃ t? : Option Nat, ∃ okL failL : List Item,
    s.queue = t?.toList.map QVal.total
        ++ okL.map (fun it => QVal.record (runRecord it))
        ++ sentinelIf s.phase
    ∧ s.spawned.Perm (okL ++ failL ++ s.pending)
    ∧ (∀ it ∈ okL, it.resp.isSome = true)
    ∧ (∀ it ∈ failL, it.resp = none)
    ∧ s.anyFailed = !failL.isEmpty
    ∧ (t? = none → okL = [] ∧ failL = [] ∧ s.spawned = [] ∧ s.pending = [])
    ∧ (∀ t, t? = some t → ∃ c₀, w[0]? = some (some c₀) ∧ t = c₀.total_hits)
    ∧ phaseInv w s t?

/-- The lightweight identifier of a search entry, as it will later be read
off the hydrated record by `main.py` (`item["nasa_id"]`). -/
def item_nasa_id (it : Item) : Option String :=
  (it.data.find? fun p => p.1 == "nasa_id").map Prod.snd

/-- A concrete one-page, one-entry world used to witness the pipeline
theorems: page 0 has no next link, `total_hits = 1`, and the single entry's
detail fetch succeeds with two asset URLs. -/
def itA : Item :=
  { data := [("nasa_id", "A1"), ("title", "dock test")],
    href := "https://images-api.nasa.gov/asset/A1",
    resp := some ["http://images/A1~orig.jpg", "http://images/A1~thumb.jpg"] }

/-- The single page of the witness world. -/
def cA : Collection := { links := [], total_hits := 1, items := [itA] }

/-- The witness world of the successful run. -/
def wOk : List (Option Collection) := [some cA]

/-- The final state of the successful witness run. -/
def sOkDone : PState :=
  { phase := Phase.done, pending := [], anyFailed := false,
    spawned := [itA],
    queue := [QVal.total 1, QVal.record (runRecord itA), QVal.sentinel] }

/-- A concrete world whose single entry's detail fetch has a non-success
status, used to witness the failure behaviour. -/
def itB : Item :=
  { data := [("nasa_id", "B2")],
    href := "https://images-api.nasa.gov/asset/B2",
    resp := none }

/-- The single page of the failing witness world. -/
def cB : Collection := { links := [], total_hits := 1, items := [itB] }

/-- The witness world of the failing run. -/
def wErr : List (Option Collection) := [some cB]

/-- The failing witness run after the item task died: the walker is blocked
in `asyncio.gather` with a failure recorded. -/
def sErr2 : PState :=
  { phase := Phase.gathering, pending := [], anyFailed := true,
    spawned := [itB], queue := [QVal.total 1] }

/-- An entry whose detail document holds no URL matching any size tier. -/
def itNoTier : Item :=
  { data := [("nasa_id", "NT1")],
    href := "https://images-api.nasa.gov/asset/NT1",
    resp := some ["http://images/NT1/asset.png"] }

/-- A record with a usable `"medium"` tier, for contrast in the C6 run. -/
def recGood : Record :=
  { fields := [("nasa_id", "G1")],
    image_urls := [("medium", "http://images/G1~medium.jpg")] }

theorem drop_of_getElem? {α : Type} :
    ∀ (w : List α) (k : Nat) (x : α), w[k]? = some x → w.drop k = x :: w.drop (k + 1) := by
  intro w
  induction w with
  | nil => intro k x h; simp at h
  | cons a w ih =>
    intro k x h
    cases k with
    | zero => simp_all
    | succ k =>
      simp only [List.getElem?_cons_succ] at h
      simpa using ih k x h

theorem consume_cons_ne (v : QVal) (vs : List QVal) (h : v ≠ QVal.sentinel) :
    consume (v :: vs) = v :: consume vs := by
  cases v with
  | total n => rfl
  | record r => rfl
  | sentinel => exact absurd rfl h

theorem afterStop_cons_ne (v : QVal) (vs : List QVal) (h : v ≠ QVal.sentinel) :
    afterStop (v :: vs) = afterStop vs := by
  cases v with
  | total n => rfl
  | record r => rfl
  | sentinel => exact absurd rfl h

theorem consume_append_sentinel :
    ∀ l : List QVal, QVal.sentinel ∉ l → consume (l ++ [QVal.sentinel]) = l := by
  intro l
  induction l with
  | nil => intro _; rfl
  | cons v vs ih =>
    intro h
    have hv : v ≠ QVal.sentinel := fun hv => h (by simp [hv])
    rw [List.cons_append, consume_cons_ne v _ hv, ih (fun hm => h (List.mem_cons_of_mem v hm))]

theorem afterStop_append_sentinel :
    ∀ l : List QVal, QVal.sentinel ∉ l → afterStop (l ++ [QVal.sentinel]) = some [] := by
  intro l
  induction l with
  | nil => intro _; rfl
  | cons v vs ih =>
    intro h
    have hv : v ≠ QVal.sentinel := fun hv => h (by simp [hv])
    rw [List.cons_append, afterStop_cons_ne v _ hv, ih (fun hm => h (List.mem_cons_of_mem v hm))]

theorem queueRecs_append (a b : List QVal) : queueRecs (a ++ b) = queueRecs a ++ queueRecs b :=
  List.filterMap_append a b _

theorem totalsOf_append (a b : List QVal) : totalsOf (a ++ b) = totalsOf a ++ totalsOf b :=
  List.filterMap_append a b _

theorem queueRecs_recordMap (l : List Item) :
    queueRecs (l.map fun it => QVal.record (runRecord it)) = l.map runRecord := by
  induction l with
  | nil => rfl
  | cons it l ih => simpa [queueRecs] using ih

theorem queueRecs_totalMap (l : List Nat) : queueRecs (l.map QVal.total) = [] := by
  induction l with
  | nil => rfl
  | cons n l ih => simp [queueRecs]

theorem totalsOf_recordMap (l : List Item) :
    totalsOf (l.map fun it => QVal.record (runRecord it)) = [] := by
  induction l with
  | nil => rfl
  | cons it l ih => simp [totalsOf]

theorem totalsOf_totalMap (l : List Nat) : totalsOf (l.map QVal.total) = l := by
  induction l with
  | nil => rfl
  | cons n l ih => simpa [totalsOf] using ih

theorem sentinel_not_mem_recordMap (l : List Item) :
    QVal.sentinel ∉ l.map fun it => QVal.record (runRecord it) := by
  simp

theorem sentinel_not_mem_totalMap (l : List Nat) : QVal.sentinel ∉ l.map QVal.total := by
  simp

theorem inv_init (w : List (Option Collection)) : PipelineInv w initState := by
  refine ⟨none, [], [], by simp [initState, sentinelIf], by simp [initState], by simp,
    by simp, by simp [initState], fun _ => ⟨rfl, rfl, rfl, rfl⟩, by simp, ?_⟩
  refine ⟨fun _ => ⟨rfl, rfl, rfl, rfl⟩, fun h => by simp at h, ?_⟩
  intro res hres htrue
  rw [List.drop_zero] at hres
  rw [hres]
  simp only [orFirst, initState, List.nil_append]
  cases res with
  | mk a bc =>
    cases bc with
    | mk b c =>
      simp only at htrue
      subst htrue
      cases a with
      | none => rfl
      | some x => rfl

theorem pagesLoop_cons_true (c : Collection) (rest : List (Option Collection)) (first : Bool)
    (h : truthy (next_page c) = true) :
    pagesLoop (some c :: rest) first =
      (orFirst (if first then some c.total_hits else none) (pagesLoop rest false).1,
       c.items ++ (pagesLoop rest false).2.1, (pagesLoop rest false).2.2) := by
  simp [pagesLoop, h]

theorem pagesLoop_cons_false (c : Collection) (rest : List (Option Collection)) (first : Bool)
    (h : truthy (next_page c) = false) :
    pagesLoop (some c :: rest) first =
      ((if first then some c.total_hits else none), c.items, true) := by
  simp [pagesLoop, h]

theorem perm_shuffle_ok (okL failL l₁ l₂ : List Item) (it : Item) :
    (okL ++ failL ++ (l₁ ++ it :: l₂)).Perm ((okL ++ [it]) ++ failL ++ (l₁ ++ l₂)) := by
  have h1 : (l₁ ++ it :: l₂).Perm (it :: (l₁ ++ l₂)) := List.perm_middle
  have h2 : (failL ++ (l₁ ++ it :: l₂)).Perm (failL ++ (it :: (l₁ ++ l₂))) :=
    List.Perm.append_left failL h1
  have h3 : (failL ++ (it :: (l₁ ++ l₂))).Perm (it :: (failL ++ (l₁ ++ l₂))) :=
    List.perm_middle
  have h4 : (okL ++ (failL ++ (l₁ ++ it :: l₂))).Perm (okL ++ (it :: (failL ++ (l₁ ++ l₂)))) :=
    List.Perm.append_left okL (h2.trans h3)
  simpa [List.append_assoc] using h4

theorem perm_shuffle_fail (okL failL l₁ l₂ : List Item) (it : Item) :
    (okL ++ failL ++ (l₁ ++ it :: l₂)).Perm (okL ++ (failL ++ [it]) ++ (l₁ ++ l₂)) := by
  have h1 : (l₁ ++ it :: l₂).Perm (it :: (l₁ ++ l₂)) := List.perm_middle
  have h2 : (failL ++ (l₁ ++ it :: l₂)).Perm (failL ++ (it :: (l₁ ++ l₂))) :=
    List.Perm.append_left failL h1
  have h4 : (okL ++ (failL ++ (l₁ ++ it :: l₂))).Perm (okL ++ (failL ++ (it :: (l₁ ++ l₂)))) :=
    List.Perm.append_left okL h2
  simpa [List.append_assoc] using h4

theorem inv_step {w : List (Option Collection)} {s s' : PState}
    (hstep : Step w s s') (hinv : PipelineInv w s) : PipelineInv w s' := by
  obtain ⟨t?, okL, failL, hq, hperm, hok, hfail, hflag, hH, hfp, hph⟩ := hinv
  cases hstep with
  | @pageOk k first c pend sp f q h =>
    obtain ⟨hT, hF, hcond⟩ := hph
    have hdrop : w.drop k = some c :: w.drop (k + 1) := drop_of_getElem? w k (some c) h
    cases first with
    | true =>
      obtain ⟨hk0, ht0, hsp0, hpend0⟩ := hT rfl
      subst hk0; subst ht0; subst hsp0; subst hpend0
      have hnil : okL ++ failL ++ ([] : List Item) = [] := hperm.symm.eq_nil
      rw [List.append_nil] at hnil
      obtain ⟨hok0, hfail0⟩ := List.append_eq_nil.mp hnil
      subst hok0; subst hfail0
      have hq0 : q = [] := by simpa [sentinelIf] using hq
      subst hq0
      have hf : f = false := by simpa using hflag
      subst hf
      have hw : w = some c :: w.drop 1 := by simpa using hdrop
      cases htr : truthy (next_page c) with
      | true =>
        refine ⟨some c.total_hits, [], [], by simp [sentinelIf], by simp, by simp, by simp,
          by simp, by simp, ?_, ?_, ?_, ?_⟩
        · intro t ht; injection ht with ht'; exact ⟨c, h, ht'.symm⟩
        · intro hc; exact absurd hc (by simp)
        · intro _; rfl
        · intro res hres htrue
          rw [Nat.zero_add] at hres
          rw [hw, pagesLoop_cons_true c (w.drop 1) true htr, hres]
          simp [htrue, orFirst]
      | false =>
        refine ⟨some c.total_hits, [], [], by simp [sentinelIf], by simp, by simp, by simp,
          by simp, by simp, ?_, rfl, ?_⟩
        · intro t ht; injection ht with ht'; exact ⟨c, h, ht'.symm⟩
        · rw [hw, pagesLoop_cons_false c (w.drop 1) true htr]
          simp
    | false =>
      have ht2 : t?.isSome = true := hF rfl
      obtain ⟨t, ht⟩ := Option.isSome_iff_exists.mp ht2
      subst ht
      cases htr : truthy (next_page c) with
      | true =>
        refine ⟨some t, okL, failL, ?_, ?_, hok, hfail, hflag, by simp, hfp, ?_, ?_, ?_⟩
        · simpa [sentinelIf] using hq
        · refine (hperm.append_right c.items).trans ?_
          simp [List.append_assoc]
        · intro hc; exact absurd hc (by simp)
        · intro _; rfl
        · intro res hres htrue
          have hres2 : pagesLoop (w.drop k) false = (res.1, c.items ++ res.2.1, res.2.2) := by
            rw [hdrop, pagesLoop_cons_true c (w.drop (k + 1)) false htr, hres]
            simp [orFirst]
          have hmain := hcond (res.1, c.items ++ res.2.1, res.2.2) hres2 (by simpa using htrue)
          simpa [List.append_assoc] using hmain
      | false =>
        refine ⟨some t, okL, failL, ?_, ?_, hok, hfail, hflag, by simp, hfp, rfl, ?_⟩
        · simpa [sentinelIf] using hq
        · refine (hperm.append_right c.items).trans ?_
          simp [List.append_assoc]
        · have hres2 : pagesLoop (w.drop k) false = (none, c.items, true) := by
            rw [hdrop, pagesLoop_cons_false c (w.drop (k + 1)) false htr]
            simp
          have hmain := hcond (none, c.items, true) hres2 rfl
          simpa [orFirst] using hmain
  | @pageErr k first pend sp f q h =>
    refine ⟨t?, okL, failL, ?_, hperm, hok, hfail, hflag, hH, hfp, trivial⟩
    simpa [sentinelIf] using hq
  | @itemOk ph it d l₁ l₂ sp f q h =>
    have hrun : runRecord it = ⟨it.data, imageUrls d⟩ := by simp [runRecord, h]
    have hpd : ph ≠ Phase.done := by
      intro hd; subst hd
      obtain ⟨h1, h2, h3, h4⟩ := hph
      simp at h3
    have hsent : sentinelIf ph = [] := by simp [sentinelIf, hpd]
    refine ⟨t?, okL ++ [it], failL, ?_, ?_, ?_, hfail, hflag,
      fun h0 => absurd (hH h0).2.2.2 (by simp), hfp, ?_⟩
    · dsimp only at hq ⊢
      rw [hq, hsent]
      simp [hrun, List.append_assoc]
    · exact hperm.trans (perm_shuffle_ok okL failL l₁ l₂ it)
    · intro x hx
      rcases List.mem_append.mp hx with hx | hx
      · exact hok x hx
      · simp at hx; subst hx; simp [h]
    · cases ph with
      | fetching k first =>
        obtain ⟨hT, hF, hcond⟩ := hph
        exact ⟨fun hfirst => absurd (hT hfirst).2.2.2 (by simp), hF, hcond⟩
      | gathering => exact hph
      | done => exact absurd rfl hpd
      | failed => trivial
  | @itemErr ph it l₁ l₂ sp f q h =>
    have hpd : ph ≠ Phase.done := by
      intro hd; subst hd
      obtain ⟨h1, h2, h3, h4⟩ := hph
      simp at h3
    refine ⟨t?, okL, failL ++ [it], hq, ?_, hok, ?_, by simp,
      fun h0 => absurd (hH h0).2.2.2 (by simp), hfp, ?_⟩
    · exact hperm.trans (perm_shuffle_fail okL failL l₁ l₂ it)
    · intro x hx
      rcases List.mem_append.mp hx with hx | hx
      · exact hfail x hx
      · simp at hx; subst hx; exact h
    · cases ph with
      | fetching k first =>
        obtain ⟨hT, hF, hcond⟩ := hph
        exact ⟨fun hfirst => absurd (hT hfirst).2.2.2 (by simp), hF, hcond⟩
      | gathering => exact hph
      | done => exact absurd rfl hpd
      | failed => trivial
  | @gatherOk sp q =>
    obtain ⟨h1, h2⟩ := hph
    have hfl : failL = [] := by
      cases failL with
      | nil => rfl
      | cons a l => simp at hflag
    subst hfl
    refine ⟨t?, okL, [], ?_, hperm, hok, by simp, by simp,
      fun h0 => by rw [h0] at h1; simp at h1, hfp, h1, h2, rfl, rfl⟩
    dsimp only at hq ⊢
    rw [hq]
    simp [sentinelIf, List.append_assoc]
  | @gatherErr pend sp q =>
    refine ⟨t?, okL, failL, ?_, hperm, hok, hfail, hflag,
      fun h0 => by rw [h0] at hph; exact absurd hph.1 (by simp), hfp, trivial⟩
    simpa [sentinelIf] using hq

theorem inv_steps {w : List (Option Collection)} {s : PState}
    (h : Steps w initState s) : PipelineInv w s := by
  induction h with
  | refl => exact inv_init w
  | tail hsteps hstep ih => exact inv_step hstep ih

theorem totalsOf_sentinelIf (ph : Phase) : totalsOf (sentinelIf ph) = [] := by
  unfold sentinelIf
  split
  · rfl
  · rfl

theorem queueRecs_sentinelIf (ph : Phase) : queueRecs (sentinelIf ph) = [] := by
  unfold sentinelIf
  split
  · rfl
  · rfl

/-- C1: for every run of the fetch pipeline that completes successfully,
exactly one sentinel (`None`) is enqueued on the queue, it is enqueued only
after every spawned `_get_item` task has terminated, and it is the last
value: whenever the sentinel is on the queue at all, the walker is in
`Phase.done` with no pending task; in that phase the queue counts exactly
one sentinel and has the shape `total :: records ++ [sentinel]`, the
consuming iterator delivers exactly the records, then `__anext__` raises
`StopAsyncIteration` with an empty queue left, and a further `__anext__`
call blocks forever, delivering nothing. -/
theorem C1_sentinel_unique_and_last (w : List (Option Collection)) (s : PState)
    (h : Steps w initState s) :
    (QVal.sentinel ∈ s.queue → s.phase = Phase.done ∧ s.pending = [] ∧ s.anyFailed = false) ∧
    (s.phase = Phase.done →
      s.pending = [] ∧ s.queue.count QVal.sentinel = 1 ∧
      ∃ (t : Nat) (recs : List Record),
        s.queue = QVal.total t :: (recs.map QVal.record ++ [QVal.sentinel]) ∧
        consume (recs.map QVal.record ++ [QVal.sentinel]) = recs.map QVal.record ∧
        afterStop (recs.map QVal.record ++ [QVal.sentinel]) = some [] ∧
        anext ([] : List QVal) = NextOut.blocked) := by
  obtain ⟨t?, okL, failL, hq, hperm, hok, hfail, hflag, hH, hfp, hph⟩ := inv_steps h
  obtain ⟨ph, pend, af, sp, q⟩ := s
  dsimp only at hq hperm hflag hH hph ⊢
  have hdone : QVal.sentinel ∈ q → ph = Phase.done := by
    intro hmem
    rw [hq] at hmem
    rcases List.mem_append.mp hmem with hmem1 | hmem1
    · rcases List.mem_append.mp hmem1 with hmem2 | hmem2
      · exact absurd hmem2 (by simp)
      · exact absurd hmem2 (sentinel_not_mem_recordMap okL)
    · by_contra hnd
      rw [sentinelIf, if_neg hnd] at hmem1
      exact absurd hmem1 (by simp)
  constructor
  · intro hmem
    have hd := hdone hmem
    subst hd
    obtain ⟨h1, h2, h3, h4⟩ := hph
    exact ⟨rfl, h3, h4⟩
  · intro hd
    subst hd
    obtain ⟨h1, h2, h3, h4⟩ := hph
    obtain ⟨t, ht⟩ := Option.isSome_iff_exists.mp h1
    subst ht
    have hqshape : q = QVal.total t :: ((okL.map runRecord).map QVal.record ++ [QVal.sentinel]) := by
      rw [hq]
      simp [sentinelIf, List.map_map, Function.comp]
    have hnotmem : QVal.sentinel ∉ (okL.map runRecord).map QVal.record := by simp
    refine ⟨h3, ?_, t, okL.map runRecord, hqshape,
      consume_append_sentinel _ hnotmem, afterStop_append_sentinel _ hnotmem, rfl⟩
    rw [hqshape]
    have hz := List.count_eq_zero.mpr hnotmem
    simp only [List.map_map] at hz
    simp [List.count_cons, List.count_append, hz]

theorem totalsOf_cons_total (t : Nat) (l : List QVal) :
    totalsOf (QVal.total t :: l) = t :: totalsOf l := by
  simp [totalsOf]

/-- C2: for every search, the total-result count extracted from the first
page is the first value placed on the queue: in every reachable state a
non-empty queue starts with `QVal.total` of the first page's `total_hits`
and holds no other total-count value; `_get_item` tasks are only ever
spawned once that total is enqueued; and the `queue.get()` inside `search`
(which returns only once the queue is non-empty) necessarily pops that
total, with every record value strictly behind it — hence the consumer
observes the total before or at the first delivered record. -/
theorem C2_total_first_value (w : List (Option Collection)) (s : PState)
    (h : Steps w initState s) :
    (s.queue ≠ [] → ∃ c₀, w[0]? = some (some c₀) ∧
        s.queue.head? = some (QVal.total c₀.total_hits) ∧
        totalsOf s.queue = [c₀.total_hits]) ∧
    (s.spawned ≠ [] → s.queue ≠ []) ∧
    (∀ v rest, searchPop s.queue = some (v, rest) →
      (∃ c₀, w[0]? = some (some c₀) ∧ v = QVal.total c₀.total_hits) ∧
      (∀ r, QVal.record r ∈ s.queue → QVal.record r ∈ rest)) := by
  obtain ⟨t?, okL, failL, hq, hperm, hok, hfail, hflag, hH, hfp, hph⟩ := inv_steps h
  obtain ⟨ph, pend, af, sp, q⟩ := s
  dsimp only at hq hperm hH ⊢
  have key : (q = [] ∧ sp = []) ∨
      ∃ c₀, w[0]? = some (some c₀) ∧
        q = QVal.total c₀.total_hits ::
          (okL.map (fun it => QVal.record (runRecord it)) ++ sentinelIf ph) := by
    cases ht : t? with
    | none =>
      obtain ⟨hok0, hfail0, hsp0, hpend0⟩ := hH ht
      subst hok0
      have hsent : sentinelIf ph = [] := by
        cases ph with
        | fetching k first => simp [sentinelIf]
        | gathering => rw [ht] at hph; exact absurd hph.1 (by simp)
        | done => rw [ht] at hph; exact absurd hph.1 (by simp)
        | failed => simp [sentinelIf]
      refine Or.inl ⟨?_, hsp0⟩
      rw [hq, ht, hsent]
      simp
    | some t =>
      obtain ⟨c₀, hc₀, htc⟩ := hfp t ht
      subst htc
      refine Or.inr ⟨c₀, hc₀, ?_⟩
      rw [hq, ht]
      simp
  refine ⟨?_, ?_, ?_⟩
  · intro hne
    rcases key with ⟨hq0, _⟩ | ⟨c₀, hc₀, hshape⟩
    · exact absurd hq0 hne
    · refine ⟨c₀, hc₀, by rw [hshape]; rfl, ?_⟩
      rw [hshape, totalsOf_cons_total, totalsOf_append, totalsOf_recordMap, totalsOf_sentinelIf]
      simp
  · intro hsp
    rcases key with ⟨hq0, hsp0⟩ | ⟨c₀, hc₀, hshape⟩
    · exact absurd hsp0 hsp
    · rw [hshape]
      simp
  · intro v rest hpop
    rcases key with ⟨hq0, _⟩ | ⟨c₀, hc₀, hshape⟩
    · rw [hq0] at hpop
      simp [searchPop] at hpop
    · rw [hshape] at hpop
      simp only [searchPop, Option.some.injEq, Prod.mk.injEq] at hpop
      obtain ⟨hv, hrest⟩ := hpop
      refine ⟨⟨c₀, hc₀, hv.symm⟩, ?_⟩
      intro r hr
      rw [hshape] at hr
      rcases List.mem_cons.mp hr with hr1 | hr1
      · exact absurd hr1 (by simp)
      · rw [← hrest]
        exact hr1

/-- C3: for every search that completes successfully (`Phase.done`), the
records delivered before the sentinel are exactly the entries discovered
across all pages of the chain: one `_get_item` task was spawned per entry of
every page (`s.spawned = its`), exactly one record was enqueued per task,
and the delivered records — and hence their `nasa_id` keys — are a
permutation of the hydrated page entries, with no duplicates and no
omissions, regardless of delivery order. -/
theorem C3_delivered_equals_discovered (w : List (Option Collection)) (s : PState)
    (h : Steps w initState s) (hd : s.phase = Phase.done) :
    ∃ (t : Nat) (its : List Item), pagesLoop w true = (some t, its, true) ∧
      s.spawned = its ∧
      (queueRecs s.queue).Perm (its.map runRecord) ∧
      ((queueRecs s.queue).map nasa_id).Perm (its.map item_nasa_id) := by
  obtain ⟨t?, okL, failL, hq, hperm, hok, hfail, hflag, hH, hfp, hph⟩ := inv_steps h
  obtain ⟨ph, pend, af, sp, q⟩ := s
  dsimp only at hq hperm hflag hd ⊢
  subst hd
  obtain ⟨h1, h2, h3, h4⟩ := hph
  dsimp only at h2 h3 h4
  subst h3
  have hfl : failL = [] := by
    rw [h4] at hflag
    cases failL with
    | nil => rfl
    | cons a l => simp at hflag
  subst hfl
  obtain ⟨t, ht⟩ := Option.isSome_iff_exists.mp h1
  subst ht
  have hqr : queueRecs q = okL.map runRecord := by
    rw [hq, queueRecs_append, queueRecs_append, queueRecs_totalMap, queueRecs_recordMap,
      queueRecs_sentinelIf]
    simp
  have hperm2 : sp.Perm okL := by simpa using hperm
  refine ⟨t, sp, h2, rfl, ?_, ?_⟩
  · rw [hqr]
    exact (hperm2.map runRecord).symm
  · rw [hqr]
    have hcomp : (okL.map runRecord).map nasa_id = okL.map item_nasa_id := by
      rw [List.map_map]
      rfl
    rw [hcomp]
    exact (hperm2.map item_nasa_id).symm

/-- C4: if any page fetch or detail fetch has a non-success response, the
walker (for page errors) or the `asyncio.gather` join (for item errors, via
the `gatherErr` transition this theorem exhibits) re-raises it and the run
aborts before the sentinel line: the sentinel is only ever on the queue in a
fully successful run — walker `done`, no task failure, every detail fetch a
success, page chain complete — and every record on the queue comes from a
detail fetch that succeeded, so a failed detail fetch enqueues nothing. -/
theorem C4_failure_aborts_without_sentinel (w : List (Option Collection)) (s : PState)
    (h : Steps w initState s) :
    (QVal.sentinel ∈ s.queue →
      s.phase = Phase.done ∧ s.anyFailed = false ∧
      (∀ it ∈ s.spawned, it.resp.isSome = true) ∧
      ∃ t, pagesLoop w true = (some t, s.spawned, true)) ∧
    (∀ r ∈ queueRecs s.queue, ∃ it d, it ∈ s.spawned ∧ it.resp = some d ∧
      r = { fields := it.data, image_urls := imageUrls d }) ∧
    (s.phase = Phase.gathering → s.anyFailed = true →
      Step w s { phase := Phase.failed, pending := s.pending, anyFailed := true,
                 spawned := s.spawned, queue := s.queue }) := by
  obtain ⟨t?, okL, failL, hq, hperm, hok, hfail, hflag, hH, hfp, hph⟩ := inv_steps h
  obtain ⟨ph, pend, af, sp, q⟩ := s
  dsimp only at hq hperm hflag hH ⊢
  refine ⟨?_, ?_, ?_⟩
  · intro hmem
    have hd : ph = Phase.done := by
      rw [hq] at hmem
      rcases List.mem_append.mp hmem with hmem1 | hmem1
      · rcases List.mem_append.mp hmem1 with hmem2 | hmem2
        · exact absurd hmem2 (by simp)
        · exact absurd hmem2 (sentinel_not_mem_recordMap okL)
      · by_contra hnd
        rw [sentinelIf, if_neg hnd] at hmem1
        exact absurd hmem1 (by simp)
    subst hd
    obtain ⟨h1, h2, h3, h4⟩ := hph
    dsimp only at h2 h3 h4
    subst h3
    have hfl : failL = [] := by
      rw [h4] at hflag
      cases failL with
      | nil => rfl
      | cons a l => simp at hflag
    subst hfl
    obtain ⟨t, ht⟩ := Option.isSome_iff_exists.mp h1
    subst ht
    refine ⟨rfl, h4, ?_, t, h2⟩
    intro it hit
    have hmem2 : it ∈ okL := by
      have := hperm.subset hit
      simpa using this
    exact hok it hmem2
  · intro r hr
    rw [hq, queueRecs_append, queueRecs_append, queueRecs_totalMap, queueRecs_recordMap,
      queueRecs_sentinelIf] at hr
    simp at hr
    obtain ⟨it, hitok, hrr⟩ := hr
    obtain ⟨d, hd⟩ := Option.isSome_iff_exists.mp (hok it hitok)
    refine ⟨it, d, ?_, hd, ?_⟩
    · exact hperm.mem_iff.mpr (by simp [hitok])
    · rw [← hrr]
      simp [runRecord, hd]
  · intro hph1 hfl1
    subst hph1
    subst hfl1
    exact Step.gatherErr

theorem steps_wOk_done : Steps wOk initState sOkDone :=
  Relation.ReflTransGen.tail
    (Relation.ReflTransGen.tail
      (Relation.ReflTransGen.tail Relation.ReflTransGen.refl
        (@Step.pageOk wOk 0 true cA [] [] false [] rfl))
      (@Step.itemOk wOk Phase.gathering itA
        ["http://images/A1~orig.jpg", "http://images/A1~thumb.jpg"]
        [] [] [itA] false [QVal.total 1] rfl))
    (@Step.gatherOk wOk [itA] [QVal.total 1, QVal.record (runRecord itA)])

theorem steps_wErr_gather : Steps wErr initState sErr2 :=
  Relation.ReflTransGen.tail
    (Relation.ReflTransGen.tail Relation.ReflTransGen.refl
      (@Step.pageOk wErr 0 true cB [] [] false [] rfl))
    (@Step.itemErr wErr Phase.gathering itB [] [] [itB] false [QVal.total 1] rfl)

/-- Witness for C1 at the concrete successful run. -/
theorem C1_sentinel_unique_and_last_witness :
    sOkDone.queue.count QVal.sentinel = 1 ∧ sOkDone.pending = [] := by
  have h := (C1_sentinel_unique_and_last wOk sOkDone steps_wOk_done).2 rfl
  exact ⟨h.2.1, h.1⟩

/-- Witness for C2 at the concrete successful run. -/
theorem C2_total_first_value_witness :
    ∃ c₀, wOk[0]? = some (some c₀) ∧
      sOkDone.queue.head? = some (QVal.total c₀.total_hits) ∧
      totalsOf sOkDone.queue = [c₀.total_hits] :=
  (C2_total_first_value wOk sOkDone steps_wOk_done).1 (by decide)

/-- Witness for C3 at the concrete successful run. -/
theorem C3_delivered_equals_discovered_witness :
    ∃ (t : Nat) (its : List Item), pagesLoop wOk true = (some t, its, true) ∧
      sOkDone.spawned = its ∧
      (queueRecs sOkDone.queue).Perm (its.map runRecord) ∧
      ((queueRecs sOkDone.queue).map nasa_id).Perm (its.map item_nasa_id) :=
  C3_delivered_equals_discovered wOk sOkDone steps_wOk_done rfl

/-- Witness for C4 at the concrete failing run: the dead detail-fetch task
propagates through `asyncio.gather`, killing the walker. -/
theorem C4_failure_aborts_without_sentinel_witness :
    Step wErr sErr2 { phase := Phase.failed, pending := sErr2.pending, anyFailed := true,
                      spawned := sErr2.spawned, queue := sErr2.queue } :=
  (C4_failure_aborts_without_sentinel wErr sErr2 steps_wErr_gather).2.2 rfl rfl

/-- C5 (code evaluation at the failing input): nested `async with` scopes.
`__aenter__` calls `self.open()` unconditionally, so the inner enter creates
a second `aiohttp.ClientSession`; after `aenter; aenter; aexit; aexit` two
pools were created, the inner exit closed nothing, the outermost exit closed
only the inner pool (creation index 1), and the outer pool (index 0) is
never closed — the scopes do not share one pool and the pool the outer
scope opened is leaked, contradicting the reference-counted sharing that
`_entered_count` is there for and that the class docstring describes. -/
theorem C5_nested_enter_creates_second_pool :
    (api_aenter (api_aenter apiInit)).pools_created = 2 ∧
    (api_aenter (api_aenter apiInit)).session ≠ (api_aenter apiInit).session ∧
    (api_aexit (api_aenter (api_aenter apiInit))).pools_closed = [] ∧
    (api_aexit (api_aexit (api_aenter (api_aenter apiInit)))).pools_closed = [1] ∧
    0 ∉ (api_aexit (api_aexit (api_aenter (api_aenter apiInit)))).pools_closed := by
  decide

/-- C6 counterexample: the claim says a detail document with no usable
asset-location tier fails only that single item and does not abort the
pipeline for the other items.  In the code the tier-less item's record is
delivered (with an empty `image_urls`), but its `rekognize` worker then dies
at the size-tier selection and `await asyncio.gather(*tasks)` in `main()`
re-raises that exception: the downstream run aborts (`mainRun ... = some
false`) even though the other item's worker is fine — so the failure is not
confined to the single item. -/
theorem C6_counterexample :
    imageUrls ["http://images/NT1/asset.png"] = [] ∧
    workerOk (runRecord itNoTier) = false ∧
    workerOk recGood = true ∧
    mainRun [] [recGood, runRecord itNoTier] = some false := by
  decide

/-- C6 (amended): a detail document with no usable tier does not abort the
fetch pipeline: `_get_item` still succeeds and enqueues a record with an
empty `image_urls` mapping (the item task takes the successful `itemOk`
transition, so every other item's record and the sentinel are delivered as
usual); the affected item instead fails downstream, in its own `rekognize`
worker at the size-tier selection, and — per the fail-fast join semantics
of the spec — that single worker's failure propagates through
`await asyncio.gather(*tasks)` in `main()`, aborting the downstream run. -/
theorem C6_missing_tier_fails_single_item_downstream
    (it : Item) (d : List String) (hresp : it.resp = some d)
    (hno : ∀ u ∈ d, ∀ k ∈ size_keys, strContains u k = false) :
    get_item it = some { fields := it.data, image_urls := [] } ∧
    (∀ (w : List (Option Collection)) (ph : Phase) (l₁ l₂ sp : List Item) (f : Bool)
      (q : List QVal),
      Step w { phase := ph, pending := l₁ ++ it :: l₂, anyFailed := f, spawned := sp, queue := q }
            { phase := ph, pending := l₁ ++ l₂, anyFailed := f, spawned := sp,
              queue := q ++ [QVal.record { fields := it.data, image_urls := [] }] }) ∧
    workerOk (runRecord it) = false ∧
    (∀ (ids0 : List String) (stream : List Record) (st' : MainState),
      mainLoop { img_ids := ids0, tasks := [] } stream = some st' →
      runRecord it ∈ st'.tasks → mainRun ids0 stream = some false) := by
  have hurls : imageUrls d = [] := by
    unfold imageUrls
    refine List.filterMap_eq_nil_iff.mpr ?_
    intro key hkey
    have hfind : d.find? (fun u => strContains u key) = none :=
      List.find?_eq_none.mpr fun u hu => by simp [hno u hu key hkey]
    rw [hfind]
    rfl
  have hrun : runRecord it = { fields := it.data, image_urls := [] } := by
    simp [runRecord, hresp, hurls]
  refine ⟨?_, ?_, ?_, ?_⟩
  · rw [get_item, hresp, Option.map_some', hurls]
  · intro w ph l₁ l₂ sp f q
    have hstep := @Step.itemOk w ph it d l₁ l₂ sp f q hresp
    rwa [hurls] at hstep
  · rw [hrun]
    rfl
  · intro ids0 stream st' hloop hmem
    rw [mainRun, hloop, Option.map_some']
    have hall : st'.tasks.all workerOk = false := by
      refine List.all_eq_false.mpr ⟨runRecord it, hmem, ?_⟩
      rw [hrun]
      simp [workerOk, pickKey, rek_keys]
    rw [hall]

theorem tick_no_refill {P t i : Nat} (ht : t % P = 0) (hi0 : 0 < i) (hiP : i < P) :
    (t + i) % P ≠ 0 := by
  obtain ⟨m, rfl⟩ := Nat.dvd_of_mod_eq_zero ht
  rw [Nat.mul_add_mod, Nat.mod_eq_of_lt hiP]
  omega

theorem limRun_take (C P : Nat) :
    ∀ (ws : List Nat) (t s n : Nat),
      (limRun C P t s ws).take n = limRun C P t s (ws.take n) := by
  intro ws
  induction ws with
  | nil => intro t s n; simp [limRun]
  | cons w ws ih =>
    intro t s n
    cases n with
    | zero => simp [limRun]
    | succ n => simp [limRun, ih]

theorem limRun_sum_le_of_no_refill (C P : Nat) :
    ∀ (ws : List Nat) (t s : Nat), (∀ i < ws.length, (t + i) % P ≠ 0) →
      (limRun C P t s ws).sum ≤ s := by
  intro ws
  induction ws with
  | nil => intro t s _; simp [limRun]
  | cons w ws ih =>
    intro t s hno
    have h0 : t % P ≠ 0 := by
      have := hno 0 (by simp)
      simpa using this
    have hrec : (limRun C P (t + 1) (s - min w s) ws).sum ≤ s - min w s := by
      refine ih (t + 1) (s - min w s) ?_
      intro i hi
      have hx := hno (i + 1) (by simpa using Nat.succ_lt_succ hi)
      have heq : t + (i + 1) = t + 1 + i := by omega
      rwa [heq] at hx
    simp only [limRun, if_neg h0, List.sum_cons]
    have hm : min w s ≤ s := Nat.min_le_right w s
    omega

theorem limRun_period_sum_le (C P : Nat) (hP : 0 < P) :
    ∀ (ws : List Nat) (t s : Nat), t % P = 0 → ((limRun C P t s ws).take P).sum ≤ C := by
  intro ws t s ht
  cases ws with
  | nil => simp [limRun]
  | cons w ws =>
    obtain ⟨P', rfl⟩ : ∃ P', P = P' + 1 := ⟨P - 1, by omega⟩
    simp only [limRun, if_pos ht, List.take_succ_cons, List.sum_cons]
    have htail : ((limRun C (P' + 1) (t + 1) (C - min w C) ws).take P').sum ≤ C - min w C := by
      rw [limRun_take]
      refine limRun_sum_le_of_no_refill C (P' + 1) (ws.take P') (t + 1) (C - min w C) ?_
      intro i hi
      have hlen : (ws.take P').length ≤ P' := by
        rw [List.length_take]
        exact Nat.min_le_left _ _
      have hilen : i < P' := lt_of_lt_of_le hi hlen
      have heq : t + 1 + i = t + (1 + i) := by omega
      rw [heq]
      exact tick_no_refill ht (by omega) (by omega)
    have hm : min w C ≤ C := Nat.min_le_right w C
    omega

theorem limRun_zero_state (C P : Nat) :
    ∀ (m t : Nat), (∀ i < m, (t + i) % P ≠ 0) →
      (limRun C P t 0 (List.replicate m C)).sum = 0 ∧
      limPermits C P t 0 (List.replicate m C) = 0 := by
  intro m
  induction m with
  | zero => intro t _; exact ⟨rfl, rfl⟩
  | succ m ih =>
    intro t hno
    have h0 : t % P ≠ 0 := by simpa using hno 0 (Nat.succ_pos m)
    have hrec := ih (t + 1) (fun i hi => by
      have hx := hno (i + 1) (Nat.succ_lt_succ hi)
      have heq : t + (i + 1) = t + 1 + i := by omega
      rwa [heq] at hx)
    simp only [List.replicate_succ, limRun, limPermits, if_neg h0, List.sum_cons]
    simpa using hrec

theorem limRun_block (C P : Nat) (hP : 0 < P) (t s : Nat) (ht : t % P = 0) :
    (limRun C P t s (List.replicate P C)).sum = C ∧
    limPermits C P t s (List.replicate P C) = 0 := by
  obtain ⟨P', rfl⟩ : ∃ P', P = P' + 1 := ⟨P - 1, by omega⟩
  have hz := limRun_zero_state C (P' + 1) P' (t + 1) (fun i hi => by
    have heq : t + 1 + i = t + (1 + i) := by omega
    rw [heq]
    exact tick_no_refill ht (by omega) (by omega))
  simp only [List.replicate_succ, limRun, limPermits, if_pos ht, List.sum_cons, Nat.min_self,
    Nat.sub_self]
  exact ⟨by simp [hz.1], hz.2⟩

theorem limRun_append (C P : Nat) :
    ∀ (ws1 ws2 : List Nat) (t s : Nat),
      limRun C P t s (ws1 ++ ws2) =
        limRun C P t s ws1 ++
          limRun C P (t + ws1.length) (limPermits C P t s ws1) ws2 := by
  intro ws1
  induction ws1 with
  | nil => intro ws2 t s; simp [limRun, limPermits]
  | cons w ws1 ih =>
    intro ws2 t s
    simp only [List.cons_append, limRun, limPermits, List.length_cons, List.append_eq]
    rw [ih]
    have heq : t + 1 + ws1.length = t + (ws1.length + 1) := by omega
    rw [heq]

theorem limRun_sustained (C P : Nat) (hP : 0 < P) :
    ∀ (n : Nat) (t s : Nat), t % P = 0 →
      (limRun C P t s (List.replicate (n * P) C)).sum = n * C := by
  intro n
  induction n with
  | zero => intro t s ht; simp [limRun]
  | succ n ih =>
    intro t s ht
    have hsplit : (n + 1) * P = P + n * P := by ring
    rw [hsplit, List.replicate_add, limRun_append, List.sum_append]
    obtain ⟨hbsum, hbperm⟩ := limRun_block C P hP t s ht
    rw [hbsum, List.length_replicate, hbperm]
    have ht2 : (t + P) % P = 0 := by rw [Nat.add_mod_right]; exact ht
    rw [ih (t + P) 0 ht2]
    ring

theorem limRun_drop (C P : Nat) :
    ∀ (ws : List Nat) (t s n : Nat),
      (limRun C P t s ws).drop n =
        limRun C P (t + n) (limPermits C P t s (ws.take n)) (ws.drop n) := by
  intro ws
  induction ws with
  | nil => intro t s n; simp [limRun, limPermits]
  | cons w ws ih =>
    intro t s n
    cases n with
    | zero => simp [limPermits]
    | succ n =>
      simp only [limRun, limPermits, List.drop_succ_cons, List.take_succ_cons]
      rw [ih]
      have heq : t + 1 + n = t + (n + 1) := by omega
      rw [heq]

/-- C7 counterexample: the claim asserts that across ANY time window of
length `C/R` seconds no more than `C` acquisitions are granted.  Take
`C = 2`, `R = 1`: the limiter is constructed as `AsyncLimiter(2, 2/1)`
(burst 2, period 2 seconds); with ticks of `1/R = 1` second the refill
period is `P = 2` ticks.  The demand `[0, 2, 2]` is granted `[0, 2, 2]`
(nothing demanded at tick 0, the full burst granted at tick 1 just before
the refill, the full burst again at tick 2 just after it), so the unaligned
window of ticks 1-2 — of length exactly `C/R = 2` seconds — grants
`4 > 2 = C` acquisitions, refuting the claim for arbitrary windows. -/
theorem C7_counterexample :
    rate_limiter_args 2 1 = (2, 2) ∧
    limRun 2 2 0 2 [0, 2, 2] = [0, 2, 2] ∧
    (((limRun 2 2 0 2 [0, 2, 2]).drop 1).take 2).sum = 4 ∧
    ¬(((limRun 2 2 0 2 [0, 2, 2]).drop 1).take 2).sum ≤ 2 := by
  refine ⟨?_, by decide, by decide, by decide⟩
  simp [rate_limiter_args]

/-- C7 (amended): the fetch-side rate limiter is constructed with burst size
`concurrency_limit` and refill period `concurrency_limit /
requests_per_second` seconds, so its average admission rate is
`requests_per_second` per second; in the spec-modelled fixed-schedule bucket
(ticks of `1/R` seconds, refill period `P` ticks) every refill-aligned
window of one period grants at most `C` acquisitions, and under sustained
saturating demand exactly `C` acquisitions are granted per period — a
long-run rate of exactly `R` per second.  (An arbitrary unaligned window of
the same length can see up to `2C` grants, see the counterexample, so the
per-refill-period reading is the correct form of the window bound.) -/
theorem C7_burst_and_rate (c r : ℚ) (C P : Nat) (hr : r ≠ 0) (hc : c ≠ 0) (hP : 0 < P) :
    rate_limiter_args c r = (c, c / r) ∧
    (rate_limiter_args c r).1 / (rate_limiter_args c r).2 = r ∧
    (∀ (k s : Nat) (ws : List Nat),
      (((limRun C P 0 s ws).drop (k * P)).take P).sum ≤ C) ∧
    (∀ (n s : Nat), (limRun C P 0 s (List.replicate (n * P) C)).sum = n * C) := by
  refine ⟨rfl, ?_, ?_, ?_⟩
  · show c / (c / r) = r
    field_simp
  · intro k s ws
    rw [limRun_drop]
    refine limRun_period_sum_le C P hP _ _ _ ?_
    simp [Nat.mul_mod_left]
  · intro n s
    exact limRun_sustained C P hP n 0 s (by simp)

/-- Witness for C7 (amended) at the source's constants
(`CONCURRENCY_LIMIT = 5`, `REQUESTS_PER_SECOND = 5`). -/
theorem C7_burst_and_rate_witness :
    rate_limiter_args 5 5 = (5, 5 / 5) ∧
    (limRun 5 5 0 0 (List.replicate (2 * 5) 5)).sum = 2 * 5 := by
  have h := C7_burst_and_rate 5 5 5 5 (by norm_num) (by norm_num) (by norm_num)
  exact ⟨h.1, h.2.2.2 2 0⟩

/-- C8: for a detail document whose URLs contain the tier substrings
`"large"` and `"thumb"` but none of `"orig"`, `"medium"`, `"small"`, the
`image_urls` mapping built by `_get_item` holds exactly the two keys
`"large"` and `"thumb"` (in the declaration order of `size_keys`), each
mapped to a URL containing that substring; the absent tiers contribute no
key. -/
theorem C8_tier_normalization (d : List String)
    (hl : ∃ u ∈ d, strContains u "large" = true)
    (ht : ∃ u ∈ d, strContains u "thumb" = true)
    (ho : ∀ u ∈ d, strContains u "orig" = false ∧ strContains u "medium" = false ∧
      strContains u "small" = false) :
    ∃ ul ut, imageUrls d = [("large", ul), ("thumb", ut)] ∧
      strContains ul "large" = true ∧ strContains ut "thumb" = true := by
  have horig : d.find? (fun u => strContains u "orig") = none :=
    List.find?_eq_none.mpr fun u hu => by simp [(ho u hu).1]
  have hmed : d.find? (fun u => strContains u "medium") = none :=
    List.find?_eq_none.mpr fun u hu => by simp [(ho u hu).2.1]
  have hsmall : d.find? (fun u => strContains u "small") = none :=
    List.find?_eq_none.mpr fun u hu => by simp [(ho u hu).2.2]
  have hlarge : ∃ ul, d.find? (fun u => strContains u "large") = some ul := by
    refine Option.isSome_iff_exists.mp (List.find?_isSome.mpr ?_)
    obtain ⟨u, hu, hcu⟩ := hl
    exact ⟨u, hu, hcu⟩
  have hthumb : ∃ ut, d.find? (fun u => strContains u "thumb") = some ut := by
    refine Option.isSome_iff_exists.mp (List.find?_isSome.mpr ?_)
    obtain ⟨u, hu, hcu⟩ := ht
    exact ⟨u, hu, hcu⟩
  obtain ⟨ul, hul⟩ := hlarge
  obtain ⟨ut, hut⟩ := hthumb
  refine ⟨ul, ut, ?_, ?_, ?_⟩
  · rw [imageUrls, size_keys]
    simp [List.filterMap_cons, horig, hmed, hsmall, hul, hut]
  · have hp := List.find?_some hul
    simpa using hp
  · have hp := List.find?_some hut
    simpa using hp

/-- Witness for C8 at a concrete two-URL detail document. -/
theorem C8_tier_normalization_witness :
    ∃ ul ut, imageUrls ["http://images/x~large.jpg", "http://images/x~thumb.png"] =
      [("large", ul), ("thumb", ut)] ∧
      strContains ul "large" = true ∧ strContains ut "thumb" = true :=
  C8_tier_normalization ["http://images/x~large.jpg", "http://images/x~thumb.png"]
    ⟨"http://images/x~large.jpg", by decide, by decide⟩
    ⟨"http://images/x~thumb.png", by decide, by decide⟩
    (by decide)

theorem mainLoop_all_skipped (ids0 : List String) :
    ∀ stream : List Record, (∀ r ∈ stream, ∃ i, nasa_id r = some i ∧ i ∈ ids0) →
      mainLoop { img_ids := ids0, tasks := [] } stream =
        some { img_ids := ids0, tasks := [] } := by
  intro stream
  induction stream with
  | nil => intro _; rfl
  | cons r rest ih =>
    intro hall
    obtain ⟨i, hi, hmem⟩ := hall r (by simp)
    have hstep : mainStep { img_ids := ids0, tasks := [] } r =
        some { img_ids := ids0, tasks := [] } := by
      simp [mainStep, hi, hmem]
    rw [mainLoop, hstep, Option.some_bind]
    exact ih fun r' hr' => hall r' (by simp [hr'])

/-- C9: if the `ProcessedSet` loaded at pipeline start contains the
identifier of every item the stream delivers, the driver loop of `main()`
spawns zero `rekognize` worker tasks and ends in its start state, so the
final `asyncio.gather` waits on the empty task set and the run completes
immediately once the stream is exhausted; and per item, an identifier
already in `img_ids` is skipped while a new identifier is first added to
`img_ids` and its worker task spawned. -/
theorem C9_resume_spawns_nothing (ids0 : List String) (stream : List Record)
    (hall : ∀ r ∈ stream, ∃ i, nasa_id r = some i ∧ i ∈ ids0) :
    (mainLoop { img_ids := ids0, tasks := [] } stream =
      some { img_ids := ids0, tasks := [] } ∧
      mainRun ids0 stream = some true) ∧
    (∀ (st : MainState) (r : Record) (i : String), nasa_id r = some i →
      (i ∈ st.img_ids → mainStep st r = some st) ∧
      (i ∉ st.img_ids → mainStep st r =
        some { img_ids := i :: st.img_ids, tasks := st.tasks ++ [r] })) := by
  refine ⟨⟨mainLoop_all_skipped ids0 stream hall, ?_⟩, ?_⟩
  · rw [mainRun, mainLoop_all_skipped ids0 stream hall, Option.map_some']
    rfl
  · intro st r i hi
    constructor
    · intro hmem
      simp [mainStep, hi, hmem]
    · intro hmem
      simp [mainStep, hi, hmem]

/-- Witness for C9: a stream repeating the already-processed identifier. -/
theorem C9_resume_spawns_nothing_witness :
    mainLoop { img_ids := ["A1"], tasks := [] } [runRecord itA] =
      some { img_ids := ["A1"], tasks := [] } ∧
    mainRun ["A1"] [runRecord itA] = some true :=
  (C9_resume_spawns_nothing ["A1"] [runRecord itA]
    (fun r hr => by
      simp only [List.mem_singleton] at hr
      subst hr
      exact ⟨"A1", by decide, by decide⟩)).1

theorem mainLoop_invariant :
    ∀ (stream : List Record) (st st' : MainState),
      mainLoop st stream = some st' →
      ((st.tasks.map nasa_id).Nodup ∧
        (∀ r ∈ st.tasks, ∃ i, nasa_id r = some i ∧ i ∈ st.img_ids)) →
      ((st'.tasks.map nasa_id).Nodup ∧
        (∀ r ∈ st'.tasks, ∃ i, nasa_id r = some i ∧ i ∈ st'.img_ids)) := by
  intro stream
  induction stream with
  | nil =>
    intro st st' hrun hinv
    rw [mainLoop] at hrun
    injection hrun with hrun
    rwa [← hrun]
  | cons r rest ih =>
    intro st st' hrun hinv
    rw [mainLoop] at hrun
    cases hi : nasa_id r with
    | none => rw [mainStep, hi] at hrun; simp at hrun
    | some i =>
      rw [mainStep, hi, Option.map_some', Option.some_bind] at hrun
      by_cases hmem : i ∈ st.img_ids
      · rw [if_pos hmem] at hrun
        exact ih st st' hrun hinv
      · rw [if_neg hmem] at hrun
        refine ih _ st' hrun ⟨?_, ?_⟩
        · have hnotin : (some i) ∉ st.tasks.map nasa_id := by
            intro hin
            obtain ⟨r', hr', hid⟩ := List.mem_map.mp hin
            obtain ⟨i', hi', hmem'⟩ := hinv.2 r' hr'
            rw [hi'] at hid
            injection hid with hid
            exact hmem (hid ▸ hmem')
          simp only [List.map_append, List.map_cons, List.map_nil]
          rw [List.nodup_append]
          exact ⟨hinv.1, List.nodup_singleton _, by
            intro x hx hx2
            simp only [List.mem_singleton] at hx2
            subst hx2
            rw [hi] at hx
            exact hnotin hx⟩
        · intro r' hr'
          rcases List.mem_append.mp hr' with hr2 | hr2
          · obtain ⟨i', hi', hmem'⟩ := hinv.2 r' hr2
            exact ⟨i', hi', by simp [hmem']⟩
          · simp only [List.mem_singleton] at hr2
            subst hr2
            exact ⟨i, hi, by simp⟩

/-- C10: during one downstream run at most one worker task is ever spawned
per distinct entry identifier, even when the stream delivers the same
identifier more than once: the identifier is added to the in-memory
`img_ids` set before its worker is spawned, so the spawned tasks carry
pairwise distinct `nasa_id` keys and every spawned task's identifier is in
the set. -/
theorem C10_one_worker_per_identifier (ids0 : List String) (stream : List Record)
    (st' : MainState)
    (hrun : mainLoop { img_ids := ids0, tasks := [] } stream = some st') :
    (st'.tasks.map nasa_id).Nodup ∧
    (∀ r ∈ st'.tasks, ∃ i, nasa_id r = some i ∧ i ∈ st'.img_ids) :=
  mainLoop_invariant stream { img_ids := ids0, tasks := [] } st' hrun
    ⟨List.nodup_nil, by simp⟩

/-- Witness for C10: the stream delivers the same record twice; only one
worker is spawned. -/
theorem C10_one_worker_per_identifier_witness :
    (({ img_ids := ["A1"], tasks := [runRecord itA] } : MainState).tasks.map nasa_id).Nodup ∧
    (∀ r ∈ ({ img_ids := ["A1"], tasks := [runRecord itA] } : MainState).tasks,
      ∃ i, nasa_id r = some i ∧
        i ∈ ({ img_ids := ["A1"], tasks := [runRecord itA] } : MainState).img_ids) :=
  C10_one_worker_per_identifier [] [runRecord itA, runRecord itA]
    { img_ids := ["A1"], tasks := [runRecord itA] } (by decide)

/-- Witness for C6 (amended) at the concrete tier-less entry, alongside an
entry with a usable tier. -/
theorem C6_missing_tier_fails_single_item_downstream_witness :
    get_item itNoTier = some { fields := itNoTier.data, image_urls := [] } ∧
    workerOk (runRecord itNoTier) = false ∧
    mainRun [] [recGood, runRecord itNoTier] = some false := by
  have h := C6_missing_tier_fails_single_item_downstream itNoTier
    ["http://images/NT1/asset.png"] rfl (by decide)
  refine ⟨h.1, h.2.2.1, ?_⟩
  exact h.2.2.2 [] [recGood, runRecord itNoTier]
    { img_ids := ["NT1", "G1"], tasks := [recGood, runRecord itNoTier] } (by decide) (by decide)
